import Mathlib

/-!
Verification of the order-book liquidity analytics engine of
`src/02_lakehouse/bronze_to_silver_gold.py` (polymarket-radar).

Two embedding layers are used.

The first layer (`PolymarketRadar`) embeds the analytics core over exact
rationals: Python floats are idealized as `ℚ` (the claims under scrutiny are
about the algorithmic structure — greedy walk, guards, absent-value
propagation — not about binary rounding).  Absent values (`None`) are `Option`.

The second layer (`PolymarketRadar.Raw`) embeds the raw-input side: JSON-like
dynamic values (`RawVal`), Python float special values (`PFloat` with
infinities and NaN, finite part idealized as `ℚ`), and Python exceptions as
`Except PyErr`.  This layer is needed for the level-parser and orchestrator
claims, whose content is precisely about coercion failures and exception
propagation.
-/

namespace PolymarketRadar

/-- Source `Level` dataclass (source lines 16-19): one price/size pair. -/
structure Level where
  price : ℚ
  size : ℚ
deriving DecidableEq

/-- Config `TOP_LEVELS_PER_SIDE = 20` (source line 10). -/
def TOP_LEVELS_PER_SIDE : ℕ := 20

/-- Config `DEPTH_BAND = 0.01` (source line 11). -/
def DEPTH_BAND : ℚ := 1 / 100

/-- Config `BUDGETS = [10, 50, 200]` (source line 12). -/
def BUDGETS : List ℚ := [10, 50, 200]

/-- The `max((l.price for l in bids), default=None)` of `best_bid_ask`
(source line 64): Python `max` keeps the first element and replaces it
whenever a later element compares strictly greater. -/
def maxPrice : List Level → Option ℚ
  | [] => none
  | l :: ls => some (ls.foldl (fun acc x => if acc < x.price then x.price else acc) l.price)

/-- The `min((l.price for l in asks), default=None)` of `best_bid_ask`
(source line 65). -/
def minPrice : List Level → Option ℚ
  | [] => none
  | l :: ls => some (ls.foldl (fun acc x => if x.price < acc then x.price else acc) l.price)

/-- Source `best_bid_ask` (source lines 63-66). -/
def best_bid_ask (bids asks : List Level) : Option ℚ × Option ℚ :=
  (maxPrice bids, minPrice asks)

/-- Source `midpoint` (source lines 69-76). -/
def midpoint (best_bid best_ask : Option ℚ) : Option ℚ :=
  match best_bid, best_ask with
  | none, none => none
  | none, some a => some a
  | some b, none => some b
  | some b, some a => some ((b + a) / 2)

/-- Source `calc_depth` (source lines 79-86): `sum(l.size for l in bids if l.price >= lo)`
is a guarded left-fold starting at 0, likewise for the ask side. -/
def calc_depth (bids asks : List Level) (mid : Option ℚ) (band : ℚ) : Option ℚ :=
  match mid with
  | none => none
  | some m =>
    let lo := m - band
    let hi := m + band
    let bid_depth := bids.foldl (fun acc l => if lo ≤ l.price then acc + l.size else acc) 0
    let ask_depth := asks.foldl (fun acc l => if l.price ≤ hi then acc + l.size else acc) 0
    some (bid_depth + ask_depth)

/-- Stable insertion of a level into a price-ascending list: the inserted
element goes after existing equal-price elements, matching the stability of
Python `sorted(asks, key=lambda l: l.price)`. -/
def insertLevel (x : Level) : List Level → List Level
  | [] => [x]
  | y :: ys => if x.price < y.price then x :: y :: ys else y :: insertLevel x ys

/-- Stable ascending-by-price sort, modelling `sorted(asks, key=lambda l: l.price)`
(source line 99). -/
def sortByPrice : List Level → List Level
  | [] => []
  | x :: xs => insertLevel x (sortByPrice xs)

/-- The `1e-9` remaining-budget exhaustion epsilon (source line 121). -/
def epsStop : ℚ := 1 / 10 ^ 9

/-- The `1e-12` filled-shares epsilon (source line 124). -/
def epsShares : ℚ := 1 / 10 ^ 12

/-- The `for lvl in asks_sorted` loop of `buy_avg_fill_price`
(source lines 104-122), with accumulators `remaining`, `total_cost`,
`total_shares`; returns the final `(total_cost, total_shares)`.
`remaining >= lvl_cost_full` is written `lvl_cost_full ≤ remaining`. -/
def walk : List Level → ℚ → ℚ → ℚ → ℚ × ℚ
  | [], _, cost, shares => (cost, shares)
  | lvl :: rest, remaining, cost, shares =>
    if lvl.price ≤ 0 then walk rest remaining cost shares
    else if lvl.price * lvl.size ≤ remaining then
      let cost' := cost + lvl.price * lvl.size
      let shares' := shares + lvl.size
      let remaining' := remaining - lvl.price * lvl.size
      if remaining' ≤ epsStop then (cost', shares')
      else walk rest remaining' cost' shares'
    else (cost + remaining, shares + remaining / lvl.price)

/-- Source `buy_avg_fill_price` (source lines 89-126). -/
def buy_avg_fill_price (asks : List Level) (budget : ℚ) : Option ℚ :=
  if budget ≤ 0 ∨ asks = [] then none
  else
    let ws := walk (sortByPrice asks) budget 0 0
    if ws.2 ≤ epsShares then none else some (ws.1 / ws.2)

/-- The filled shares (`total_shares`) accumulated by the walk of
`buy_avg_fill_price` for a given book and budget. -/
def filledShares (asks : List Level) (budget : ℚ) : ℚ :=
  (walk (sortByPrice asks) budget 0 0).2

/-- The cash spent (`total_cost`) accumulated by the walk of
`buy_avg_fill_price` for a given book and budget. -/
def totalSpent (asks : List Level) (budget : ℚ) : ℚ :=
  (walk (sortByPrice asks) budget 0 0).1

/-- The spread expression of `main` (source line 178):
`None if (bb is None or ba is None) else (ba - bb)`. -/
def spreadOf (bb ba : Option ℚ) : Option ℚ :=
  match bb, ba with
  | some b, some a => some (a - b)
  | _, _ => none

/-- The slippage expression of `main` (source lines 188-190):
`None if (avg is None or baseline is None) else (avg - baseline)`. -/
def slippageOf (avg baseline : Option ℚ) : Option ℚ :=
  match avg, baseline with
  | some a, some b => some (a - b)
  | _, _ => none

/-- The score expression of `main` (source lines 194-196):
absent unless depth, spread and `sl50` are all present, else
`(depth / 1000.0) - (spread * 3.0) - (sl50 * 4.0)`. -/
def scoreOf (depth spread sl50 : Option ℚ) : Option ℚ :=
  match depth, spread, sl50 with
  | some d, some s, some x => some (d / 1000 - s * 3 - x * 4)
  | _, _, _ => none

/-- The per-token gold metrics assembled by `main` (source lines 176-210),
restricted to the derived numeric fields. -/
structure QMetrics where
  best_bid : Option ℚ
  best_ask : Option ℚ
  mid : Option ℚ
  spread : Option ℚ
  depth : Option ℚ
  sl10 : Option ℚ
  sl50 : Option ℚ
  sl200 : Option ℚ
  score : Option ℚ
deriving DecidableEq

/-- The metric pipeline of `main` for one order book with already-parsed
sides (source lines 176-196). -/
def metricsOf (bids asks : List Level) : QMetrics :=
  let bb := (best_bid_ask bids asks).1
  let ba := (best_bid_ask bids asks).2
  let mid := midpoint bb ba
  let spread := spreadOf bb ba
  let depth := calc_depth bids asks mid DEPTH_BAND
  let avg10 := buy_avg_fill_price asks 10
  let avg50 := buy_avg_fill_price asks 50
  let avg200 := buy_avg_fill_price asks 200
  let baseline := match mid with | some m => some m | none => ba
  let sl10 := slippageOf avg10 baseline
  let sl50 := slippageOf avg50 baseline
  let sl200 := slippageOf avg200 baseline
  let score := scoreOf depth spread sl50
  ⟨bb, ba, mid, spread, depth, sl10, sl50, sl200, score⟩

/-! Claim-side model of the Execution-Cost Simulator (C2): the greedy walk
exactly as the claim words it — ascending price order, skip non-positive
prices, consume a full level whenever its cost fits within the remaining
budget, otherwise a single partial fill that spends the whole remaining
budget and stops.  The claim states no other stopping rule. -/

/-- The book walk as described by claim C2 (no early exhaustion stop). -/
def specWalk : List Level → ℚ → ℚ → ℚ → ℚ × ℚ
  | [], _, cost, shares => (cost, shares)
  | lvl :: rest, remaining, cost, shares =>
    if lvl.price ≤ 0 then specWalk rest remaining cost shares
    else if lvl.price * lvl.size ≤ remaining then
      specWalk rest (remaining - lvl.price * lvl.size)
        (cost + lvl.price * lvl.size) (shares + lvl.size)
    else (cost + remaining, shares + remaining / lvl.price)

/-- The fill price as described by claim C2: walk result
`totalSpent / totalFilledShares` when filled shares exceed `1e-12`. -/
def claimFill (asks : List Level) (budget : ℚ) : Option ℚ :=
  let ws := specWalk (sortByPrice asks) budget 0 0
  if epsShares < ws.2 then some (ws.1 / ws.2) else none

/-- The book walk of the amended claim C2: as `specWalk` but additionally,
after a full-level consumption, the walk stops once the remaining budget has
dropped to at most `1e-9` (the code's exhaustion epsilon). -/
def specWalkEps : List Level → ℚ → ℚ → ℚ → ℚ × ℚ
  | [], _, cost, shares => (cost, shares)
  | lvl :: rest, remaining, cost, shares =>
    if lvl.price ≤ 0 then specWalkEps rest remaining cost shares
    else if lvl.price * lvl.size ≤ remaining then
      if remaining - lvl.price * lvl.size ≤ epsStop then
        (cost + lvl.price * lvl.size, shares + lvl.size)
      else
        specWalkEps rest (remaining - lvl.price * lvl.size)
          (cost + lvl.price * lvl.size) (shares + lvl.size)
    else (cost + remaining, shares + remaining / lvl.price)

/-- The fill price as described by the amended claim C2. -/
def claimFillEps (asks : List Level) (budget : ℚ) : Option ℚ :=
  let ws := specWalkEps (sortByPrice asks) budget 0 0
  if epsShares < ws.2 then some (ws.1 / ws.2) else none

/-! Store-passing rendition of the Execution-Cost Simulator (claim C9).
Levels live in an explicit store (the mutable heap) and the simulator
receives references (indices) into it; every source statement of
`buy_avg_fill_price` either reads a level attribute or binds a local, so the
translation threads the store through unchanged.  The frame theorem makes
the absence of writes explicit. -/

/-- Read a level from the store (attribute access `lvl.price` / `lvl.size`
through a reference). -/
def readLevel (store : List Level) (i : ℕ) : Level :=
  store.getD i ⟨0, 0⟩

/-- Stable insertion of a reference into a price-ascending reference list,
prices read through the store. -/
def insertIdx (store : List Level) (i : ℕ) : List ℕ → List ℕ
  | [] => [i]
  | j :: js =>
    if (readLevel store i).price < (readLevel store j).price then i :: j :: js
    else j :: insertIdx store i js

/-- Source `sorted(asks, key=lambda l: l.price)` (source line 99) at the reference
level: builds a new, sorted list of references; the store is not touched. -/
def sortIdxByPrice (store : List Level) : List ℕ → List ℕ
  | [] => []
  | i :: is => insertIdx store i (sortIdxByPrice store is)

/-- The walk of `buy_avg_fill_price` (source lines 104-122) reading levels
through the store and returning the store it leaves behind. -/
def walkSt (store : List Level) : List ℕ → ℚ → ℚ → ℚ → (ℚ × ℚ) × List Level
  | [], _, cost, shares => ((cost, shares), store)
  | i :: rest, remaining, cost, shares =>
    let lvl := readLevel store i
    if lvl.price ≤ 0 then walkSt store rest remaining cost shares
    else if lvl.price * lvl.size ≤ remaining then
      let cost' := cost + lvl.price * lvl.size
      let shares' := shares + lvl.size
      let remaining' := remaining - lvl.price * lvl.size
      if remaining' ≤ epsStop then ((cost', shares'), store)
      else walkSt store rest remaining' cost' shares'
    else ((cost + remaining, shares + remaining / lvl.price), store)

/-- Source `buy_avg_fill_price` (source lines 89-126) over a store of levels and a
list of references into it; returns its result together with the store it
leaves behind. -/
def buyAvgFillSt (store : List Level) (askRefs : List ℕ) (budget : ℚ) :
    Option ℚ × List Level :=
  if budget ≤ 0 ∨ askRefs = [] then (none, store)
  else
    let sortedRefs := sortIdxByPrice store askRefs
    let wsSt := walkSt store sortedRefs budget 0 0
    if wsSt.1.2 ≤ epsShares then (none, wsSt.2) else (some (wsSt.1.1 / wsSt.1.2), wsSt.2)

/-- The three successive slippage simulations of `main` (source lines
182-184), each receiving the store left behind by the previous one. -/
def slippageSimSt (store : List Level) (askRefs : List ℕ) :
    (Option ℚ × Option ℚ × Option ℚ) × List Level :=
  let r10 := buyAvgFillSt store askRefs 10
  let r50 := buyAvgFillSt r10.2 askRefs 50
  let r200 := buyAvgFillSt r50.2 askRefs 200
  ((r10.1, r50.1, r200.1), r200.2)

namespace Raw

/-- A Python float: a finite value (idealized as an exact rational) or one of
the IEEE special values that `float(...)` can produce. -/
inductive PFloat where
  | finite (q : ℚ)
  | inf
  | ninf
  | nan
deriving DecidableEq

/-- Whether a Python float is finite (neither infinite nor NaN). -/
def PFloat.isFinite : PFloat → Bool
  | .finite _ => true
  | _ => false

/-- Python float negation. -/
def pfNeg : PFloat → PFloat
  | .finite q => .finite (-q)
  | .inf => .ninf
  | .ninf => .inf
  | .nan => .nan

/-- Python float `<=` (IEEE: any comparison involving NaN is false). -/
def pfLe : PFloat → PFloat → Bool
  | .nan, _ => false
  | _, .nan => false
  | .ninf, _ => true
  | _, .ninf => false
  | _, .inf => true
  | .inf, _ => false
  | .finite q, .finite r => decide (q ≤ r)

/-- Python float `<` (IEEE: any comparison involving NaN is false). -/
def pfLt : PFloat → PFloat → Bool
  | .nan, _ => false
  | _, .nan => false
  | .ninf, .ninf => false
  | .ninf, _ => true
  | _, .ninf => false
  | .inf, _ => false
  | _, .inf => true
  | .finite q, .finite r => decide (q < r)

/-- Python float addition (IEEE special-value rules; finite arithmetic
idealized as exact). -/
def pfAdd : PFloat → PFloat → PFloat
  | .nan, _ => .nan
  | _, .nan => .nan
  | .inf, .ninf => .nan
  | .ninf, .inf => .nan
  | .inf, _ => .inf
  | _, .inf => .inf
  | .ninf, _ => .ninf
  | _, .ninf => .ninf
  | .finite q, .finite r => .finite (q + r)

/-- Python float subtraction. -/
def pfSub (a b : PFloat) : PFloat :=
  pfAdd a (pfNeg b)

/-- Python float multiplication (IEEE: `inf * 0 = nan`, sign rules for
infinities). -/
def pfMul : PFloat → PFloat → PFloat
  | .nan, _ => .nan
  | _, .nan => .nan
  | .finite q, .finite r => .finite (q * r)
  | .inf, .inf => .inf
  | .inf, .ninf => .ninf
  | .ninf, .inf => .ninf
  | .ninf, .ninf => .inf
  | .inf, .finite q => if q = 0 then .nan else if 0 < q then .inf else .ninf
  | .finite q, .inf => if q = 0 then .nan else if 0 < q then .inf else .ninf
  | .ninf, .finite q => if q = 0 then .nan else if 0 < q then .ninf else .inf
  | .finite q, .ninf => if q = 0 then .nan else if 0 < q then .ninf else .inf

/-- Python exceptions relevant to this pipeline. -/
inductive PyErr where
  | typeError
  | valueError
  | keyError
  | attributeError
  | zeroDivisionError
deriving DecidableEq

/-- Python float division: raises `ZeroDivisionError` on a (finite) zero
divisor regardless of the numerator, otherwise follows the IEEE
special-value rules (signed zeros are not modelled). -/
def pfDiv (a b : PFloat) : Except PyErr PFloat :=
  match b with
  | .finite r =>
    if r = 0 then .error .zeroDivisionError
    else .ok (match a with
      | .finite q => .finite (q / r)
      | .inf => if 0 < r then .inf else .ninf
      | .ninf => if 0 < r then .ninf else .inf
      | .nan => .nan)
  | .inf => .ok (match a with
      | .finite _ => .finite 0
      | _ => .nan)
  | .ninf => .ok (match a with
      | .finite _ => .finite 0
      | _ => .nan)
  | .nan => .ok .nan

/-- Python truthiness of a float: zero is falsy; infinities and NaN are
truthy. -/
def pfTruthy : PFloat → Bool
  | .finite q => decide (q ≠ 0)
  | _ => true

/-- A JSON-like dynamic value, as produced by `json.loads` (which accepts
`Infinity`/`NaN` literals, hence `num` carries a `PFloat`). -/
inductive RawVal where
  | str (s : String)
  | num (f : PFloat)
  | bool (b : Bool)
  | null
  | list (xs : List RawVal)
  | dict (kvs : List (String × RawVal))

/-- Python truthiness of a raw value. -/
def truthy : RawVal → Bool
  | .str s => !s.isEmpty
  | .num f => pfTruthy f
  | .bool b => b
  | .null => false
  | .list xs => !xs.isEmpty
  | .dict kvs => !kvs.isEmpty

/-- Key lookup in a dict's key/value list; a later duplicate key overwrites
an earlier one, as when Python builds a dict. -/
def dlookup (kvs : List (String × RawVal)) (k : String) : Option RawVal :=
  kvs.foldl (fun acc kv => if kv.1 = k then some kv.2 else acc) none

/-- Source `d.get(k, default)` on a dict's key/value list. -/
def getd (kvs : List (String × RawVal)) (k : String) (dflt : RawVal) : RawVal :=
  (dlookup kvs k).getD dflt

/-- Subscription `x[k]` with a string key: `KeyError` when a dict lacks the
key, `TypeError` when `x` is not a dict. -/
def getItem (x : RawVal) (k : String) : Except PyErr RawVal :=
  match x with
  | .dict kvs =>
    match dlookup kvs k with
    | some v => .ok v
    | none => .error .keyError
  | _ => .error .typeError

/-- Value of a digit run read most-significant first. -/
def digitsToNat (ds : List Char) : ℕ :=
  ds.foldl (fun n c => 10 * n + (c.toNat - 48)) 0

/-- A non-empty run of decimal digits. -/
def isDigits (ds : List Char) : Bool :=
  !ds.isEmpty && ds.all (fun c => c.isDigit)

/-- Exponent part of a float literal: optional sign then digits. -/
def parseExp : List Char → Option ℤ
  | '+' :: ds => if isDigits ds then some (digitsToNat ds : ℤ) else none
  | '-' :: ds => if isDigits ds then some (-(digitsToNat ds : ℤ)) else none
  | ds => if isDigits ds then some (digitsToNat ds : ℤ) else none

/-- Mantissa of a float literal: `digits`, `digits.digits?` or `.digits`. -/
def parseMantissa (cs : List Char) : Option ℚ :=
  let ipart := cs.takeWhile (fun c => c.isDigit)
  let rest := cs.dropWhile (fun c => c.isDigit)
  match rest with
  | [] => if ipart.isEmpty then none else some (digitsToNat ipart : ℚ)
  | '.' :: rest2 =>
    let fpart := rest2.takeWhile (fun c => c.isDigit)
    let rest3 := rest2.dropWhile (fun c => c.isDigit)
    if rest3.isEmpty then
      if ipart.isEmpty && fpart.isEmpty then none
      else some ((digitsToNat ipart : ℚ) + (digitsToNat fpart : ℚ) / 10 ^ fpart.length)
    else none
  | _ => none

/-- Unsigned numeric float literal: mantissa with optional `e`-exponent. -/
def parseFloatNum (cs : List Char) : Option ℚ :=
  let mpart := cs.takeWhile (fun c => c ≠ 'e')
  match cs.dropWhile (fun c => c ≠ 'e') with
  | [] => parseMantissa mpart
  | _ :: expPart =>
    match parseMantissa mpart, parseExp expPart with
    | some m, some e => some (m * (10 : ℚ) ^ e)
    | _, _ => none

/-- Unsigned body of a float literal after sign stripping: `inf`,
`infinity`, `nan`, or a numeric literal. -/
def parseFloatBody (cs : List Char) (neg : Bool) : Option PFloat :=
  if cs = "inf".toList ∨ cs = "infinity".toList then
    some (if neg then .ninf else .inf)
  else if cs = "nan".toList then some .nan
  else (parseFloatNum cs).map (fun q => .finite (if neg then -q else q))

/-- Source `float(s)` on a string: models CPython float-literal parsing (whitespace
stripped, optional sign, `inf`/`infinity`/`nan` case-insensitive, or a
decimal literal with optional fraction and exponent). -/
def parseFloatLit (s : String) : Option PFloat :=
  match (s.trim.toLower).toList with
  | '+' :: rest => parseFloatBody rest false
  | '-' :: rest => parseFloatBody rest true
  | rest => parseFloatBody rest false

/-- Source `float(x)` on a raw value: floats pass through unchanged (so infinities
and NaN survive), booleans coerce to 0/1, strings are parsed
(`ValueError` on failure), and `None`/lists/dicts raise `TypeError`. -/
def pyFloat : RawVal → Except PyErr PFloat
  | .num f => .ok f
  | .bool b => .ok (.finite (if b then 1 else 0))
  | .str s =>
    match parseFloatLit s with
    | some f => .ok f
    | none => .error .valueError
  | .null => .error .typeError
  | .list _ => .error .typeError
  | .dict _ => .error .typeError

/-- The elements produced by `for x in v`: lists yield their elements,
strings their one-character substrings, dicts their keys; numbers, booleans
and `None` are not iterable (`TypeError`). -/
def iterElems : RawVal → Except PyErr (List RawVal)
  | .list xs => .ok xs
  | .str s => .ok (s.toList.map (fun c => .str c.toString))
  | .dict kvs => .ok (kvs.map (fun kv => .str kv.1))
  | _ => .error .typeError

/-- A parsed level with Python-float fields (source `Level` dataclass as
populated by `parse_levels`). -/
structure PFLevel where
  price : PFloat
  size : PFloat
deriving DecidableEq

/-- The loop body of `parse_levels` (source lines 56-59):
`Level(price=float(x["price"]), size=float(x["size"]))` under
`try/except Exception: continue` — any exception drops the record. -/
def parseLevelRec (x : RawVal) : Option PFLevel :=
  match getItem x "price" with
  | .error _ => none
  | .ok praw =>
    match pyFloat praw with
    | .error _ => none
    | .ok p =>
      match getItem x "size" with
      | .error _ => none
      | .ok sraw =>
        match pyFloat sraw with
        | .error _ => none
        | .ok s => some ⟨p, s⟩

/-- Source `parse_levels` (source lines 53-60): iterates `side_levels or []`; the
`for` statement itself raises `TypeError` on a truthy non-iterable, while
per-record failures are swallowed by the inner `try`. -/
def parseLevels (sideLevels : RawVal) : Except PyErr (List PFLevel) :=
  match iterElems (if truthy sideLevels then sideLevels else .list []) with
  | .error e => .error e
  | .ok xs => .ok (xs.filterMap parseLevelRec)

/-- Source `max((l.price for l in bids), default=None)` over Python floats
(source line 64): first element kept, replaced when a later one compares
strictly greater (NaN never compares greater). -/
def bestBidPF : List PFLevel → Option PFloat
  | [] => none
  | l :: ls => some (ls.foldl (fun acc x => if pfLt acc x.price then x.price else acc) l.price)

/-- Source `min((l.price for l in asks), default=None)` over Python floats
(source line 65). -/
def bestAskPF : List PFLevel → Option PFloat
  | [] => none
  | l :: ls => some (ls.foldl (fun acc x => if pfLt x.price acc then x.price else acc) l.price)

/-- Source `midpoint` (source lines 69-76) over Python floats; the division by
`2.0` cannot raise but is typed through `Except` like every float division. -/
def midpointPF (bb ba : Option PFloat) : Except PyErr (Option PFloat) :=
  match bb, ba with
  | none, none => .ok none
  | none, some a => .ok (some a)
  | some b, none => .ok (some b)
  | some b, some a =>
    match pfDiv (pfAdd b a) (.finite 2) with
    | .error e => .error e
    | .ok m => .ok (some m)

/-- Source `sum(...)` over a list of sizes: left fold of float addition from 0. -/
def pfSumSizes (ls : List PFLevel) : PFloat :=
  ls.foldl (fun acc l => pfAdd acc l.size) (.finite 0)

/-- Source `calc_depth` (source lines 79-86) over Python floats. -/
def calcDepthPF (bids asks : List PFLevel) (mid : Option PFloat) (band : PFloat) :
    Option PFloat :=
  match mid with
  | none => none
  | some m =>
    let lo := pfSub m band
    let hi := pfAdd m band
    let bid_depth := pfSumSizes (bids.filter (fun l => pfLe lo l.price))
    let ask_depth := pfSumSizes (asks.filter (fun l => pfLe l.price hi))
    some (pfAdd bid_depth ask_depth)

/-- Stable insertion for the Python-float level sort. -/
def pfInsertLevel (x : PFLevel) : List PFLevel → List PFLevel
  | [] => [x]
  | y :: ys => if pfLt x.price y.price then x :: y :: ys else y :: pfInsertLevel x ys

/-- Source `sorted(asks, key=lambda l: l.price)` (source line 99) over Python
floats: a stable sort by price. -/
def pfSortByPrice : List PFLevel → List PFLevel
  | [] => []
  | x :: xs => pfInsertLevel x (pfSortByPrice xs)

/-- The walk of `buy_avg_fill_price` (source lines 104-122) over Python
floats; the partial-fill division can in principle raise, hence `Except`. -/
def pfWalk : List PFLevel → PFloat → PFloat → PFloat → Except PyErr (PFloat × PFloat)
  | [], _, cost, shares => .ok (cost, shares)
  | lvl :: rest, remaining, cost, shares =>
    if pfLe lvl.price (.finite 0) then pfWalk rest remaining cost shares
    else
      let costFull := pfMul lvl.price lvl.size
      if pfLe costFull remaining then
        let cost' := pfAdd cost costFull
        let shares' := pfAdd shares lvl.size
        let remaining' := pfSub remaining costFull
        if pfLe remaining' (.finite epsStop) then .ok (cost', shares')
        else pfWalk rest remaining' cost' shares'
      else
        match pfDiv remaining lvl.price with
        | .error e => .error e
        | .ok pShares => .ok (pfAdd cost remaining, pfAdd shares pShares)

/-- Source `buy_avg_fill_price` (source lines 89-126) over Python floats. -/
def buyPF (asks : List PFLevel) (budget : PFloat) : Except PyErr (Option PFloat) :=
  if pfLe budget (.finite 0) || asks.isEmpty then .ok none
  else
    match pfWalk (pfSortByPrice asks) budget (.finite 0) (.finite 0) with
    | .error e => .error e
    | .ok ws =>
      if pfLe ws.2 (.finite epsShares) then .ok none
      else
        match pfDiv ws.1 ws.2 with
        | .error e => .error e
        | .ok p => .ok (some p)

/-- The score expression of `main` (source lines 194-196) over Python
floats. -/
def scorePF (depth spread sl50 : Option PFloat) : Except PyErr (Option PFloat) :=
  match depth, spread, sl50 with
  | some d, some s, some x =>
    match pfDiv d (.finite 1000) with
    | .error e => .error e
    | .ok q => .ok (some (pfSub (pfSub q (pfMul s (.finite 3))) (pfMul x (.finite 4))))
  | _, _, _ => .ok none

/-- The derived metric fields of one gold row (source lines 198-210) over
Python floats. -/
structure PFMetrics where
  best_bid : Option PFloat
  best_ask : Option PFloat
  mid : Option PFloat
  spread : Option PFloat
  depth : Option PFloat
  sl10 : Option PFloat
  sl50 : Option PFloat
  sl200 : Option PFloat
  score : Option PFloat
deriving DecidableEq

/-- The metric pipeline of `main` for one order book with already-parsed
sides (source lines 176-196), over Python floats. -/
def metricsPF (bids asks : List PFLevel) : Except PyErr PFMetrics :=
  let bb := bestBidPF bids
  let ba := bestAskPF asks
  match midpointPF bb ba with
  | .error e => .error e
  | .ok mid =>
    let spread := match bb, ba with
      | some b, some a => some (pfSub a b)
      | _, _ => none
    let depth := calcDepthPF bids asks mid (.finite DEPTH_BAND)
    match buyPF asks (.finite 10) with
    | .error e => .error e
    | .ok avg10 =>
      match buyPF asks (.finite 50) with
      | .error e => .error e
      | .ok avg50 =>
        match buyPF asks (.finite 200) with
        | .error e => .error e
        | .ok avg200 =>
          let baseline := match mid with
            | some m => some m
            | none => ba
          let sl10 := match avg10, baseline with
            | some a, some b => some (pfSub a b)
            | _, _ => none
          let sl50 := match avg50, baseline with
            | some a, some b => some (pfSub a b)
            | _, _ => none
          let sl200 := match avg200, baseline with
            | some a, some b => some (pfSub a b)
            | _, _ => none
          match scorePF depth spread sl50 with
          | .error e => .error e
          | .ok score => .ok ⟨bb, ba, mid, spread, depth, sl10, sl50, sl200, score⟩

/-- Python `a or b`: `a` when truthy, else `b`. -/
def pyOr (a b : RawVal) : RawVal :=
  if truthy a then a else b

/-- One emitted gold row (source lines 198-210).  The identity fields keep
the pre-`str()` raw values: the `str(...)` serialization applied at source
lines 161-162 is JSON/CSV serialization glue (spec section 1 places it out
of scope) and never raises on JSON-derived values. -/
structure MetRec where
  snapTs : RawVal
  tokenId : RawVal
  metrics : PFMetrics

/-- The per-record body of the orchestrator loop (source lines 160-210):
identity extraction via `ob.get(...) or ...` (an `AttributeError` on a
non-dict record), both side parses, then the metric pipeline.  The top-N
level export (lines 168-174) only feeds `csv.writerow` and cannot raise, so
it is not replayed here. -/
def processRecord (ob : RawVal) : Except PyErr MetRec :=
  match ob with
  | .dict kvs =>
    let tokenId := pyOr (getd kvs "asset_id" .null) (pyOr (getd kvs "token_id" .null) (.str ""))
    let snapTs := pyOr (getd kvs "timestamp" .null) (.str "")
    match parseLevels (getd kvs "bids" (.list [])) with
    | .error e => .error e
    | .ok bids =>
      match parseLevels (getd kvs "asks" (.list [])) with
      | .error e => .error e
      | .ok asks =>
        match metricsPF bids asks with
        | .error e => .error e
        | .ok m => .ok ⟨snapTs, tokenId, m⟩
  | _ => .error .attributeError

/-- The orchestrator loop `for ob in orderbooks` (source line 160): records
are processed in order and an uncaught exception aborts the whole batch
(the gold rows are only written after the loop completes). -/
def processBatch : List RawVal → Except PyErr (List MetRec)
  | [] => .ok []
  | ob :: obs =>
    match processRecord ob with
    | .error e => .error e
    | .ok r =>
      match processBatch obs with
      | .error e => .error e
      | .ok rs => .ok (r :: rs)

/-- A raw value that is safe as a `bids`/`asks` field: falsy (so the loop
iterates the empty list) or iterable. -/
def sideSafe (v : RawVal) : Bool :=
  !truthy v ||
    (match v with
     | .str _ => true
     | .list _ => true
     | .dict _ => true
     | _ => false)

/-- A record the orchestrator can process without raising: a mapping whose
`bids` and `asks` fields are each falsy or iterable. -/
def safeRecord : RawVal → Bool
  | .dict kvs =>
    sideSafe (getd kvs "bids" (.list [])) && sideSafe (getd kvs "asks" (.list []))
  | _ => false

/-- Whether a record's two sides both parse to no level at all. -/
def parsesEmpty : RawVal → Bool
  | .dict kvs =>
    (match parseLevels (getd kvs "bids" (.list [])) with
     | .ok [] => true
     | _ => false) &&
    (match parseLevels (getd kvs "asks" (.list [])) with
     | .ok [] => true
     | _ => false)
  | _ => false

/-- All nine derived metric fields of a gold row are absent. -/
def allAbsent (r : MetRec) : Bool :=
  r.metrics.best_bid.isNone && r.metrics.best_ask.isNone && r.metrics.mid.isNone &&
    r.metrics.spread.isNone && r.metrics.depth.isNone && r.metrics.sl10.isNone &&
    r.metrics.sl50.isNone && r.metrics.sl200.isNone && r.metrics.score.isNone

/-- A sample batch: one record without an extractable identity whose only
bid level is unparseable (null price) and whose ask side is `null`; used to
instantiate the orchestrator theorems at a concrete input. -/
def sampleBatch : List RawVal :=
  [.dict [("bids", .list [.dict [("price", .null), ("size", .num (.finite 3))]]),
    ("asks", .null)]]

end Raw

/-! Helper lemmas about the rational-layer analytics. -/

theorem insertLevel_mem (x a : Level) (l : List Level) :
    x ∈ insertLevel a l ↔ x = a ∨ x ∈ l := by
  induction l with
  | nil => simp [insertLevel]
  | cons y ys ih =>
    simp only [insertLevel]
    split
    · simp [List.mem_cons]
    · simp only [List.mem_cons, ih]
      tauto

theorem sortByPrice_mem (x : Level) (l : List Level) :
    x ∈ sortByPrice l ↔ x ∈ l := by
  induction l with
  | nil => simp [sortByPrice]
  | cons y ys ih =>
    simp only [sortByPrice, insertLevel_mem, ih, List.mem_cons]

theorem walk_nonpos (ls : List Level) (r c s : ℚ) (h : ∀ l ∈ ls, l.price ≤ 0) :
    walk ls r c s = (c, s) := by
  induction ls generalizing r c s with
  | nil => rfl
  | cons l rest ih =>
    have hl : l.price ≤ 0 := h l (List.mem_cons_self _ _)
    simp only [walk, if_pos hl]
    exact ih r c s (fun x hx => h x (List.mem_cons_of_mem _ hx))

theorem walk_spent_le (ls : List Level) (r c s : ℚ) (hr : 0 ≤ r) :
    (walk ls r c s).1 ≤ c + r := by
  induction ls generalizing r c s with
  | nil =>
    simp only [walk]
    linarith
  | cons l rest ih =>
    by_cases h1 : l.price ≤ 0
    · simpa [walk, h1] using ih r c s hr
    · by_cases h2 : l.price * l.size ≤ r
      · by_cases h3 : r - l.price * l.size ≤ epsStop
        · simp only [walk, if_neg h1, if_pos h2, if_pos h3]
          linarith
        · have := ih (r - l.price * l.size) (c + l.price * l.size) (s + l.size) (by linarith)
          simp only [walk, if_neg h1, if_pos h2, if_neg h3]
          linarith
      · simp only [walk, if_neg h1, if_neg h2]
        linarith

theorem specWalkEps_eq_walk (ls : List Level) (r c s : ℚ) :
    specWalkEps ls r c s = walk ls r c s := by
  induction ls generalizing r c s with
  | nil => rfl
  | cons l rest ih =>
    simp only [specWalkEps, walk]
    split
    · exact ih _ _ _
    · split
      · split
        · rfl
        · exact ih _ _ _
      · rfl

theorem foldl_guard_sum (p : Level → Prop) [DecidablePred p] (ls : List Level) (a : ℚ) :
    ls.foldl (fun acc l => if p l then acc + l.size else acc) a =
      a + ((ls.filter (fun l => decide (p l))).map Level.size).sum := by
  induction ls generalizing a with
  | nil => simp
  | cons l rest ih =>
    by_cases h : p l
    · simp [List.foldl_cons, h, ih, add_assoc]
    · simp [List.foldl_cons, h, ih]

/-! Helper lemmas about the store-passing simulator (claim C9). -/

theorem walkSt_store_eq (store : List Level) (idxs : List ℕ) (r c s : ℚ) :
    (walkSt store idxs r c s).2 = store := by
  induction idxs generalizing r c s with
  | nil => rfl
  | cons i rest ih =>
    simp only [walkSt]
    split
    · exact ih _ _ _
    · split
      · split
        · rfl
        · exact ih _ _ _
      · rfl

theorem walkSt_fst_eq (store : List Level) (idxs : List ℕ) (r c s : ℚ) :
    (walkSt store idxs r c s).1 = walk (idxs.map (readLevel store)) r c s := by
  induction idxs generalizing r c s with
  | nil => rfl
  | cons i rest ih =>
    simp only [walkSt, List.map_cons, walk]
    split
    · exact ih _ _ _
    · split
      · split
        · rfl
        · exact ih _ _ _
      · rfl

theorem insertIdx_map (store : List Level) (i : ℕ) (l : List ℕ) :
    (insertIdx store i l).map (readLevel store) =
      insertLevel (readLevel store i) (l.map (readLevel store)) := by
  induction l with
  | nil => rfl
  | cons j js ih =>
    simp only [insertIdx, insertLevel, List.map_cons]
    split
    · simp
    · simp [ih]

theorem sortIdx_map (store : List Level) (l : List ℕ) :
    (sortIdxByPrice store l).map (readLevel store) =
      sortByPrice (l.map (readLevel store)) := by
  induction l with
  | nil => rfl
  | cons i is ih =>
    simp only [sortIdxByPrice, sortByPrice, List.map_cons, insertIdx_map, ih]

theorem buyAvgFillSt_eq (store : List Level) (askRefs : List ℕ) (budget : ℚ) :
    buyAvgFillSt store askRefs budget =
      (buy_avg_fill_price (askRefs.map (readLevel store)) budget, store) := by
  by_cases hg : budget ≤ 0 ∨ askRefs = []
  · have hg' : budget ≤ 0 ∨ askRefs.map (readLevel store) = [] := by
      rcases hg with h | h
      · exact Or.inl h
      · exact Or.inr (by rw [h]; rfl)
    simp [buyAvgFillSt, buy_avg_fill_price, hg, hg']
  · have hg' : ¬(budget ≤ 0 ∨ askRefs.map (readLevel store) = []) := by
      intro hc
      rcases hc with h | h
      · exact hg (Or.inl h)
      · exact hg (Or.inr (List.map_eq_nil_iff.mp h))
    simp only [buyAvgFillSt, buy_avg_fill_price, if_neg hg, if_neg hg']
    rw [walkSt_fst_eq, walkSt_store_eq, sortIdx_map]
    by_cases hs : (walk (sortByPrice (askRefs.map (readLevel store))) budget 0 0).2 ≤ epsShares
    · simp [hs]
    · simp [hs]

/-! Concrete-evaluation helper lemmas (kernel `decide` cannot normalize
rational multiplication, so these are proved by `norm_num` unfolding). -/

theorem buy_single_level_eval : buy_avg_fill_price [⟨2, 100⟩] 50 = some 2 := by
  norm_num [buy_avg_fill_price, sortByPrice, insertLevel, walk, epsStop, epsShares]

theorem filledShares_single_level_eval : filledShares [⟨2, 100⟩] 50 = 25 := by
  norm_num [filledShares, sortByPrice, insertLevel, walk, epsStop, epsShares]

/-! Claim theorems for the rational analytics layer. -/

/-- C2 counterexample: the Execution-Cost Simulator does not return the fill
price of the walk exactly as claim C2 describes it.  With asks
`[{1,1},{2,1}]` and budget `1 + 1e-10 > 0`, the code consumes the first
level, sees remaining budget `1e-10 ≤ 1e-9` and stops (fill price 1), while
the claim's walk would go on to a partial fill at price 2 and return a
strictly larger volume-weighted price. -/
theorem c2_counterexample :
    0 < (1 + 1 / 10 ^ 10 : ℚ) ∧
      buy_avg_fill_price [⟨1, 1⟩, ⟨2, 1⟩] (1 + 1 / 10 ^ 10) ≠
        claimFill [⟨1, 1⟩, ⟨2, 1⟩] (1 + 1 / 10 ^ 10) := by
  constructor
  · norm_num
  · have h1 : buy_avg_fill_price [⟨1, 1⟩, ⟨2, 1⟩] (1 + 1 / 10 ^ 10) = some 1 := by
      norm_num [buy_avg_fill_price, sortByPrice, insertLevel, walk, epsStop, epsShares]
      intro h
      exact absurd h (List.cons_ne_nil _ _)
    have h2 : claimFill [⟨1, 1⟩, ⟨2, 1⟩] (1 + 1 / 10 ^ 10) =
        some ((1 + 1 / 10 ^ 10) / (1 + 1 / (2 * 10 ^ 10))) := by
      norm_num [claimFill, sortByPrice, insertLevel, specWalk, epsShares]
    rw [h1, h2]
    intro hc
    have hval := Option.some.inj hc
    norm_num at hval

/-- C2 (amended): for every ask list and every budget `B > 0`,
`buy_avg_fill_price` returns exactly the fill price of the claimed greedy
walk once the walk's stopping rule also includes the code's exhaustion
check — after a full-level consumption the walk stops as soon as the
remaining budget is at most `1e-9`; everything else (ascending order,
non-positive prices skipped, full fill when the level cost fits, single
budget-exhausting partial fill otherwise, result
`totalSpent / totalFilledShares` when filled shares exceed `1e-12`) is as
the claim states. -/
theorem c2_greedy_walk (asks : List Level) (B : ℚ) (hB : 0 < B) :
    buy_avg_fill_price asks B = claimFillEps asks B := by
  have hnle : ¬ B ≤ 0 := not_le.mpr hB
  simp only [buy_avg_fill_price, claimFillEps, specWalkEps_eq_walk]
  by_cases he : asks = []
  · subst he
    norm_num [sortByPrice, walk, epsShares]
  · have hg : ¬(B ≤ 0 ∨ asks = []) := by
      intro hc
      rcases hc with h | h
      · exact hnle h
      · exact he h
    rw [if_neg hg]
    by_cases hs : (walk (sortByPrice asks) B 0 0).2 ≤ epsShares
    · rw [if_pos hs, if_neg (not_lt.mpr hs)]
    · rw [if_neg hs, if_pos (not_le.mp hs)]

/-- C2 witness: at the claim's own concrete instance — a single ask level
`{price 2, size 100}` and budget 50 — the simulator agrees with the amended
walk, the fill price is exactly 2, and the partial fill is 25 shares. -/
theorem c2_greedy_walk_witness :
    0 < (50 : ℚ) ∧
      buy_avg_fill_price [⟨2, 100⟩] 50 = claimFillEps [⟨2, 100⟩] 50 ∧
      buy_avg_fill_price [⟨2, 100⟩] 50 = some 2 ∧
      filledShares [⟨2, 100⟩] 50 = 25 :=
  ⟨by norm_num, c2_greedy_walk [⟨2, 100⟩] 50 (by norm_num),
    buy_single_level_eval, filledShares_single_level_eval⟩

/-- C4: the simulator returns absent exactly when the budget is
non-positive, or the ask side is empty, or the walk's filled shares do not
exceed `1e-12`; and in particular a book whose levels all have non-positive
price fills zero shares, hence absent. -/
theorem c4_absent_iff (asks : List Level) (B : ℚ) :
    (buy_avg_fill_price asks B = none ↔
      B ≤ 0 ∨ asks = [] ∨ filledShares asks B ≤ epsShares) ∧
    ((∀ l ∈ asks, l.price ≤ 0) → buy_avg_fill_price asks B = none) := by
  constructor
  · simp only [buy_avg_fill_price, filledShares]
    by_cases hg : B ≤ 0 ∨ asks = []
    · rw [if_pos hg]
      exact iff_of_true rfl (by tauto)
    · rw [if_neg hg]
      by_cases hs : (walk (sortByPrice asks) B 0 0).2 ≤ epsShares
      · rw [if_pos hs]
        exact iff_of_true rfl (Or.inr (Or.inr hs))
      · rw [if_neg hs]
        constructor
        · intro h
          exact absurd h (by simp)
        · intro hr
          exfalso
          rcases hr with h | h | h
          · exact hg (Or.inl h)
          · exact hg (Or.inr h)
          · exact hs h
  · intro hnp
    by_cases hg : B ≤ 0 ∨ asks = []
    · simp [buy_avg_fill_price, hg]
    · have hsorted : ∀ l ∈ sortByPrice asks, l.price ≤ 0 := fun l hl =>
        hnp l ((sortByPrice_mem l asks).mp hl)
      have hw : walk (sortByPrice asks) B 0 0 = (0, 0) := walk_nonpos _ _ _ _ hsorted
      simp only [buy_avg_fill_price, if_neg hg, hw]
      norm_num [epsShares]

/-- C4 witness: with a single negative-price level and budget 7, the
simulator returns absent, both through the characterization and through the
non-positive-price conjunct. -/
theorem c4_absent_iff_witness :
    (buy_avg_fill_price [⟨-1, 5⟩] 7 = none ↔
      (7 : ℚ) ≤ 0 ∨ [(⟨-1, 5⟩ : Level)] = [] ∨ filledShares [⟨-1, 5⟩] 7 ≤ epsShares) ∧
    buy_avg_fill_price [⟨-1, 5⟩] 7 = none :=
  ⟨(c4_absent_iff [⟨-1, 5⟩] 7).1, (c4_absent_iff [⟨-1, 5⟩] 7).2 (by decide)⟩

/-- C5: the midpoint is absent when both best prices are absent, equals the
single present value in the one-sided cases, equals the arithmetic mean when
both are present; and for an empty bid side with a non-empty ask side the
best bid is absent and the midpoint equals the best ask. -/
theorem c5_midpoint_cases :
    midpoint none none = none ∧
    (∀ a : ℚ, midpoint none (some a) = some a) ∧
    (∀ b : ℚ, midpoint (some b) none = some b) ∧
    (∀ b a : ℚ, midpoint (some b) (some a) = some ((b + a) / 2)) ∧
    (∀ asks : List Level, asks ≠ [] →
      (best_bid_ask [] asks).1 = none ∧
      midpoint (best_bid_ask [] asks).1 (best_bid_ask [] asks).2 =
        (best_bid_ask [] asks).2) := by
  refine ⟨rfl, fun a => rfl, fun b => rfl, fun b a => rfl, fun asks h => ⟨rfl, ?_⟩⟩
  cases asks with
  | nil => exact absurd rfl h
  | cons l ls => rfl

/-- C5 witness: a one-level ask side with empty bids — the midpoint is the
best ask. -/
theorem c5_midpoint_cases_witness :
    ([(⟨2, 1⟩ : Level)] ≠ []) ∧
      (best_bid_ask [] [⟨2, 1⟩]).1 = none ∧
      midpoint (best_bid_ask [] [⟨2, 1⟩]).1 (best_bid_ask [] [⟨2, 1⟩]).2 =
        (best_bid_ask [] [⟨2, 1⟩]).2 :=
  ⟨by decide, c5_midpoint_cases.2.2.2.2 [⟨2, 1⟩] (by decide)⟩

/-- C6: the spread is present exactly when both best prices are present, it
then equals `best_ask - best_bid` unconditionally, and in particular a
crossed/locked book (`best_ask < best_bid`) yields the negative difference
as-is. -/
theorem c6_spread (bb ba : Option ℚ) :
    ((spreadOf bb ba).isSome ↔ bb.isSome ∧ ba.isSome) ∧
    (∀ b a : ℚ, spreadOf (some b) (some a) = some (a - b)) ∧
    (∀ b a : ℚ, a < b → spreadOf (some b) (some a) = some (a - b)) := by
  refine ⟨?_, fun b a => rfl, fun b a _ => rfl⟩
  cases bb <;> cases ba <;> simp [spreadOf]

/-- C6 witness: a crossed book with best bid 3/5 and best ask 2/5 reports
the negative spread `2/5 - 3/5`. -/
theorem c6_spread_witness :
    (2 / 5 : ℚ) < 3 / 5 ∧
      spreadOf (some (3 / 5)) (some (2 / 5)) = some (2 / 5 - 3 / 5) :=
  ⟨by norm_num, (c6_spread (some (3 / 5)) (some (2 / 5))).2.2 (3 / 5) (2 / 5) (by norm_num)⟩

/-- C7: depth-in-band is absent exactly when the midpoint is absent, and
otherwise equals the sum of the sizes of the bid levels with price at least
`mid - b` plus the sizes of the ask levels with price at most `mid + b`
(every level of the lists contributes, duplicates included). -/
theorem c7_depth (bids asks : List Level) (mid : Option ℚ) (b : ℚ) :
    (calc_depth bids asks mid b = none ↔ mid = none) ∧
    (∀ m : ℚ, calc_depth bids asks (some m) b =
      some (((bids.filter (fun l => decide (m - b ≤ l.price))).map Level.size).sum +
            ((asks.filter (fun l => decide (l.price ≤ m + b))).map Level.size).sum)) := by
  constructor
  · cases mid <;> simp [calc_depth]
  · intro m
    simp only [calc_depth]
    rw [foldl_guard_sum (fun l => m - b ≤ l.price), foldl_guard_sum (fun l => l.price ≤ m + b)]
    simp

/-- C8: the composite score is absent unless depth, spread and the slippage
at the reference budget are all present, in which case it equals
`depth / 1000 - spread * 3 - slippage * 4`; the metric pipeline feeds it
exactly its own depth, spread and budget-50 slippage fields, and 50 is the
middle configured budget. -/
theorem c8_score (d s x : Option ℚ) :
    ((scoreOf d s x).isSome ↔ d.isSome ∧ s.isSome ∧ x.isSome) ∧
    (∀ dv sv xv : ℚ, scoreOf (some dv) (some sv) (some xv) =
      some (dv / 1000 - sv * 3 - xv * 4)) ∧
    (∀ bids asks : List Level, (metricsOf bids asks).score =
      scoreOf (metricsOf bids asks).depth (metricsOf bids asks).spread
        (metricsOf bids asks).sl50) ∧
    (∀ bids asks : List Level, (metricsOf bids asks).sl50 =
      slippageOf (buy_avg_fill_price asks 50)
        (match (metricsOf bids asks).mid with
         | some m => some m
         | none => (metricsOf bids asks).best_ask)) ∧
    BUDGETS[1]? = some 50 := by
  refine ⟨?_, fun dv sv xv => rfl, fun bids asks => rfl, fun bids asks => rfl, rfl⟩
  cases d <;> cases s <;> cases x <;> simp [scoreOf]

/-- C9: the store-passing rendition of the Execution-Cost Simulator leaves
the level store untouched and computes the same result as the pure function
of the dereferenced levels; consequently the three chained budget
simulations of the orchestrator observe the same store and return the three
independent results. -/
theorem c9_no_mutation (store : List Level) (askRefs : List ℕ) :
    (∀ budget : ℚ,
      (buyAvgFillSt store askRefs budget).2 = store ∧
      (buyAvgFillSt store askRefs budget).1 =
        buy_avg_fill_price (askRefs.map (readLevel store)) budget) ∧
    slippageSimSt store askRefs =
      ((buy_avg_fill_price (askRefs.map (readLevel store)) 10,
        buy_avg_fill_price (askRefs.map (readLevel store)) 50,
        buy_avg_fill_price (askRefs.map (readLevel store)) 200), store) := by
  refine ⟨fun budget => ?_, ?_⟩
  · rw [buyAvgFillSt_eq]
    exact ⟨rfl, rfl⟩
  · simp [slippageSimSt, buyAvgFillSt_eq]

/-- C10: whenever the simulator returns a fill price for a positive budget,
the cash spent by the walk is at most the budget, and the fill price times
the filled shares equals the cash spent — hence is also at most the
budget. -/
theorem c10_budget_bound (asks : List Level) (B p : ℚ) (hB : 0 < B)
    (h : buy_avg_fill_price asks B = some p) :
    totalSpent asks B ≤ B ∧
      p * filledShares asks B = totalSpent asks B ∧
      p * filledShares asks B ≤ B := by
  have hspent : totalSpent asks B ≤ B := by
    have := walk_spent_le (sortByPrice asks) B 0 0 (le_of_lt hB)
    simpa [totalSpent] using this
  simp only [buy_avg_fill_price] at h
  by_cases hg : B ≤ 0 ∨ asks = []
  · rw [if_pos hg] at h
    cases h
  · rw [if_neg hg] at h
    by_cases hs : (walk (sortByPrice asks) B 0 0).2 ≤ epsShares
    · rw [if_pos hs] at h
      cases h
    · rw [if_neg hs] at h
      rw [Option.some.injEq] at h
      have hsh : epsShares < filledShares asks B := not_le.mp hs
      have hne : filledShares asks B ≠ 0 := by
        have h0 : (0 : ℚ) < epsShares := by norm_num [epsShares]
        exact ne_of_gt (lt_trans h0 hsh)
      have hp : p = totalSpent asks B / filledShares asks B := h.symm
      have hmul : p * filledShares asks B = totalSpent asks B := by
        rw [hp]
        exact div_mul_cancel₀ _ hne
      exact ⟨hspent, hmul, by rw [hmul]; exact hspent⟩

/-- C10 witness: single ask level `{price 2, size 100}` and budget 50 — the
fill price 2 times the 25 filled shares is the 50 spent, within budget. -/
theorem c10_budget_bound_witness :
    0 < (50 : ℚ) ∧ buy_avg_fill_price [⟨2, 100⟩] 50 = some 2 ∧
      (totalSpent [⟨2, 100⟩] 50 ≤ 50 ∧
        (2 : ℚ) * filledShares [⟨2, 100⟩] 50 = totalSpent [⟨2, 100⟩] 50 ∧
        (2 : ℚ) * filledShares [⟨2, 100⟩] 50 ≤ 50) :=
  ⟨by norm_num, buy_single_level_eval,
    c10_budget_bound [⟨2, 100⟩] 50 2 (by norm_num) buy_single_level_eval⟩

namespace Raw

/-! Helper lemmas about the raw layer: the metric pipeline can only raise
through float division, and every division it performs is guarded. -/

theorem exists_ok_of_ne_error {ε α : Type} (x : Except ε α) (h : ∀ e, x ≠ .error e) :
    ∃ v, x = .ok v := by
  cases x with
  | error e => exact absurd rfl (h e)
  | ok v => exact ⟨v, rfl⟩

theorem pfDiv_ok (a b : PFloat) (h : b ≠ .finite 0) : ∃ v, pfDiv a b = .ok v := by
  cases b with
  | finite r =>
    have hr : r ≠ 0 := by
      intro h0
      exact h (by rw [h0])
    exact exists_ok_of_ne_error _ (fun e he => by simp [pfDiv, hr] at he)
  | inf => exact ⟨_, rfl⟩
  | ninf => exact ⟨_, rfl⟩
  | nan => exact ⟨_, rfl⟩

theorem pfWalk_ok (ls : List PFLevel) (r c s : PFloat) :
    ∃ v, pfWalk ls r c s = .ok v := by
  induction ls generalizing r c s with
  | nil => exact ⟨_, rfl⟩
  | cons l rest ih =>
    cases h1 : pfLe l.price (.finite 0) with
    | true => simpa [pfWalk, h1] using ih r c s
    | false =>
      cases h2 : pfLe (pfMul l.price l.size) r with
      | true =>
        cases h3 : pfLe (pfSub r (pfMul l.price l.size)) (.finite epsStop) with
        | true =>
          exact exists_ok_of_ne_error _ (fun e he => by simp [pfWalk, h1, h2, h3] at he)
        | false => simpa [pfWalk, h1, h2, h3] using ih _ _ _
      | false =>
        have hne : l.price ≠ PFloat.finite 0 := by
          intro he
          rw [he] at h1
          norm_num [pfLe] at h1
        obtain ⟨v, hv⟩ := pfDiv_ok r l.price hne
        exact exists_ok_of_ne_error _ (fun e he => by simp [pfWalk, h1, h2, hv] at he)

theorem buyPF_ok (asks : List PFLevel) (budget : PFloat) :
    ∃ v, buyPF asks budget = .ok v := by
  cases hg : (pfLe budget (.finite 0) || asks.isEmpty) with
  | true =>
    exact exists_ok_of_ne_error _ (fun e he => by simp [buyPF, hg] at he)
  | false =>
    obtain ⟨ws, hws⟩ := pfWalk_ok (pfSortByPrice asks) budget (.finite 0) (.finite 0)
    cases hs : pfLe ws.2 (.finite epsShares) with
    | true =>
      exact exists_ok_of_ne_error _ (fun e he => by simp [buyPF, hg, hws, hs] at he)
    | false =>
      have hne : ws.2 ≠ PFloat.finite 0 := by
        intro he
        rw [he] at hs
        norm_num [pfLe, epsShares] at hs
      obtain ⟨p, hp⟩ := pfDiv_ok ws.1 ws.2 hne
      exact exists_ok_of_ne_error _ (fun e he => by simp [buyPF, hg, hws, hs, hp] at he)

theorem midpointPF_ok (bb ba : Option PFloat) : ∃ v, midpointPF bb ba = .ok v := by
  cases bb with
  | none =>
    cases ba with
    | none => exact ⟨_, rfl⟩
    | some a => exact ⟨_, rfl⟩
  | some b =>
    cases ba with
    | none => exact ⟨_, rfl⟩
    | some a =>
      obtain ⟨m, hm⟩ := pfDiv_ok (pfAdd b a) (.finite 2) (by decide)
      exact ⟨some m, by simp [midpointPF, hm]⟩

theorem scorePF_ok (depth spread sl50 : Option PFloat) :
    ∃ v, scorePF depth spread sl50 = .ok v := by
  cases depth with
  | none => exact ⟨_, rfl⟩
  | some d =>
    cases spread with
    | none => exact ⟨_, rfl⟩
    | some s =>
      cases sl50 with
      | none => exact ⟨_, rfl⟩
      | some x =>
        obtain ⟨q, hq⟩ := pfDiv_ok d (.finite 1000) (by decide)
        exact exists_ok_of_ne_error _ (fun e he => by simp [scorePF, hq] at he)

theorem metricsPF_ok (bids asks : List PFLevel) : ∃ m, metricsPF bids asks = .ok m := by
  obtain ⟨mid, hmid⟩ := midpointPF_ok (bestBidPF bids) (bestAskPF asks)
  obtain ⟨a10, h10⟩ := buyPF_ok asks (.finite 10)
  obtain ⟨a50, h50⟩ := buyPF_ok asks (.finite 50)
  obtain ⟨a200, h200⟩ := buyPF_ok asks (.finite 200)
  simp only [metricsPF, hmid, h10, h50, h200]
  obtain ⟨sc, hsc⟩ := scorePF_ok _ _ _
  rw [hsc]
  exact ⟨_, rfl⟩

theorem parseLevels_ok (v : RawVal) (h : sideSafe v = true) :
    ∃ ls, parseLevels v = .ok ls := by
  cases ht : truthy v with
  | false =>
    exact exists_ok_of_ne_error _ (fun e he => by simp [parseLevels, ht, iterElems] at he)
  | true =>
    have hit : ∃ xs, iterElems v = .ok xs := by
      cases v with
      | str s => exact ⟨_, rfl⟩
      | list xs => exact ⟨_, rfl⟩
      | dict kvs => exact ⟨_, rfl⟩
      | num f => simp [sideSafe, ht] at h
      | bool b => simp [sideSafe, ht] at h
      | null => simp [truthy] at ht
    obtain ⟨xs, hxs⟩ := hit
    exact exists_ok_of_ne_error _ (fun e he => by simp [parseLevels, ht, hxs] at he)

theorem processRecord_ok (ob : RawVal) (h : safeRecord ob = true) :
    ∃ r, processRecord ob = .ok r ∧ (parsesEmpty ob = true → allAbsent r = true) := by
  cases ob with
  | dict kvs =>
    rw [safeRecord, Bool.and_eq_true] at h
    obtain ⟨bs, hbs⟩ := parseLevels_ok _ h.1
    obtain ⟨as_, has⟩ := parseLevels_ok _ h.2
    obtain ⟨m, hm⟩ := metricsPF_ok bs as_
    refine ⟨⟨pyOr (getd kvs "timestamp" .null) (.str ""),
      pyOr (getd kvs "asset_id" .null) (pyOr (getd kvs "token_id" .null) (.str "")), m⟩,
      ?_, ?_⟩
    · simp [processRecord, hbs, has, hm]
    · intro hpe
      rw [parsesEmpty, Bool.and_eq_true] at hpe
      obtain ⟨hpe1, hpe2⟩ := hpe
      rw [hbs] at hpe1
      rw [has] at hpe2
      cases bs with
      | cons x xs => simp at hpe1
      | nil =>
        cases as_ with
        | cons x xs => simp at hpe2
        | nil =>
          have hmm : metricsPF ([] : List PFLevel) [] =
              .ok ⟨none, none, none, none, none, none, none, none, none⟩ := rfl
          rw [hmm] at hm
          have hmv : m = ⟨none, none, none, none, none, none, none, none, none⟩ :=
            (Except.ok.inj hm).symm
          subst hmv
          rfl
  | str s => simp [safeRecord] at h
  | num f => simp [safeRecord] at h
  | bool b => simp [safeRecord] at h
  | null => simp [safeRecord] at h
  | list xs => simp [safeRecord] at h

/-! Claim theorems for the raw layer (orchestrator and level parser). -/

/-- C1 counterexample: a single malformed record whose `bids` field is the
number 5 (a truthy non-iterable) makes `parse_levels`'s `for` statement
raise `TypeError`, which propagates out of the orchestrator loop and aborts
the batch with no record emitted — contradicting the claim that a malformed
record never aborts the batch. -/
theorem c1_counterexample :
    processBatch [.dict [("bids", .num (.finite 5))]] = .error .typeError := rfl

/-- C1 (amended): over a batch in which every record is a mapping whose
`bids` and `asks` fields are each falsy or iterable, no malformed record
aborts the batch and no exception escapes the orchestrator: processing
returns one metrics record per input record, and any record none of whose
levels parses yields a record with all derived fields absent.  (A record
that is not a mapping, or whose `bids`/`asks` field is a truthy
non-iterable, does abort the batch, per the counterexample.) -/
theorem c1_safe_batch (obs : List RawVal)
    (h : ∀ ob ∈ obs, safeRecord ob = true) :
    ∃ rs, processBatch obs = .ok rs ∧ rs.length = obs.length ∧
      List.Forall₂ (fun ob r => parsesEmpty ob = true → allAbsent r = true) obs rs := by
  induction obs with
  | nil => exact ⟨[], rfl, rfl, List.Forall₂.nil⟩
  | cons ob obs ih =>
    obtain ⟨r, hr, habs⟩ := processRecord_ok ob (h ob (List.mem_cons_self _ _))
    obtain ⟨rs, hrs, hlen, hfa⟩ := ih (fun x hx => h x (List.mem_cons_of_mem _ hx))
    refine ⟨r :: rs, ?_, ?_, List.Forall₂.cons habs hfa⟩
    · simp [processBatch, hr, hrs]
    · simp [hlen]

/-- C1 witness: a concrete batch with one identity-free record whose bid
level is unparseable and whose ask side is null — the batch succeeds with
one all-absent metrics record. -/
theorem c1_safe_batch_witness :
    (∀ ob ∈ sampleBatch, safeRecord ob = true) ∧
    ∃ rs, processBatch sampleBatch = .ok rs ∧ rs.length = sampleBatch.length ∧
      List.Forall₂ (fun ob r => parsesEmpty ob = true → allAbsent r = true)
        sampleBatch rs := by
  have hsafe : ∀ ob ∈ sampleBatch, safeRecord ob = true := by decide
  exact ⟨hsafe, c1_safe_batch sampleBatch hsafe⟩

/-- C3 counterexample: a raw level whose price is the float infinity (as
`json.loads` produces for an `Infinity` literal, and as `float("inf")`
produces from a string) is not dropped: `float(...)` succeeds on it, so the
parsed output contains a non-finite price — contradicting the claim that no
infinite or NaN price ever appears in a parsed Level. -/
theorem c3_counterexample :
    parseLevels (.list [.dict [("price", .num .inf), ("size", .num (.finite 1))]]) =
      .ok [⟨.inf, .finite 1⟩] ∧ PFloat.isFinite .inf = false :=
  ⟨rfl, rfl⟩

/-- C3 (amended): for every sequence of raw level records, the parser keeps
exactly the records both of whose `price` and `size` fields exist and
coerce under `float(...)` — a record whose field is missing, null, or not
coercible to a number is silently dropped — but the coerced values are kept
as-is, so non-finite (infinite or NaN) prices and sizes can appear in
parsed Levels. -/
theorem c3_parser_characterization (xs : List RawVal) :
    parseLevels (.list xs) = .ok (xs.filterMap parseLevelRec) ∧
    (∀ (x : RawVal) (l : PFLevel), parseLevelRec x = some l ↔
      (∃ praw, getItem x "price" = .ok praw ∧ pyFloat praw = .ok l.price) ∧
      (∃ sraw, getItem x "size" = .ok sraw ∧ pyFloat sraw = .ok l.size)) := by
  constructor
  · cases xs with
    | nil => rfl
    | cons x xs => rfl
  · intro x l
    constructor
    · intro h
      obtain ⟨lp, lsz⟩ := l
      simp only [parseLevelRec] at h
      cases hp : getItem x "price" with
      | error e => simp [hp] at h
      | ok praw =>
        simp only [hp] at h
        cases hpf : pyFloat praw with
        | error e => simp [hpf] at h
        | ok p =>
          simp only [hpf] at h
          cases hs : getItem x "size" with
          | error e => simp [hs] at h
          | ok sraw =>
            simp only [hs] at h
            cases hsf : pyFloat sraw with
            | error e => simp [hsf] at h
            | ok s =>
              simp only [hsf, Option.some.injEq, PFLevel.mk.injEq] at h
              obtain ⟨h1, h2⟩ := h
              subst h1
              subst h2
              exact ⟨⟨praw, rfl, hpf⟩, ⟨sraw, rfl, hsf⟩⟩
    · rintro ⟨⟨praw, hp, hpf⟩, ⟨sraw, hs, hsf⟩⟩
      simp [parseLevelRec, hp, hpf, hs, hsf]

end Raw

end PolymarketRadar
